import Mathlib

/-!
# Verification of the Arabic PDF accessibility processor

Shallow embedding of `make_accessible.py`: the text-presence detector
(`has_extractable_text`), the OCR/overlay pipeline (`ocr_pdf`), and the
in-place processing loop (`process_directory`).  Machine text is modelled
as `List Char`; page-space coordinates (points) as `ℚ`.  External
collaborators (pdfplumber, arabic_reshaper, python-bidi, PIL, pypdf) are
modelled from the spec's interface contracts where their internals decide
a claim; every definition notes its source.
-/

/-! ## Python string helpers -/

/-- Python `str.strip()` restricted to whitespace: drop whitespace
from both ends of the character list. -/
def pyStrip (l : List Char) : List Char :=
  ((l.dropWhile Char.isWhitespace).reverse.dropWhile Char.isWhitespace).reverse

/-- Python truthiness of `line.strip()`: the line contains at least one
non-whitespace character. -/
def nonBlank (l : List Char) : Bool :=
  l.any (fun c => !c.isWhitespace)

/-- Python `str.splitlines()` restricted to the `\n` separator: every
newline terminates a line, and a trailing newline does not produce a
final empty line (`"a\n"` gives one line, `""` gives none). -/
def pySplitlines : List Char → List (List Char)
  | [] => []
  | c :: cs =>
    if c = '\n' then [] :: pySplitlines cs
    else
      match pySplitlines cs with
      | [] => [[c]]
      | l :: ls => (c :: l) :: ls

/-- Split on `\n` keeping a (possibly empty) final segment: the exact
inverse of joining with `\n`.  Used to relate whole-text transformations
to per-line ones. -/
def splitOnNl : List Char → List (List Char)
  | [] => [[]]
  | c :: cs =>
    if c = '\n' then [] :: splitOnNl cs
    else
      match splitOnNl cs with
      | [] => [[c]]
      | l :: ls => (c :: l) :: ls

/-- Join segments with `\n` (inverse of `splitOnNl`). -/
def joinNl : List (List Char) → List Char
  | [] => []
  | [l] => l
  | l :: ls => l ++ '\n' :: joinNl ls

/-- Drop a final empty segment: relates `splitOnNl` to `pySplitlines`. -/
def dropLastEmpty : List (List Char) → List (List Char)
  | [] => []
  | [l] => if l = [] then [] else [l]
  | l :: ls => l :: dropLastEmpty ls

/-! ## Text-presence detection (`has_extractable_text`, lines 50-61)

A page read either raises inside `page.extract_text()` or yields
`None`/a string; a document either opens under `pdfplumber.open` or
raises there.  Exceptions are modelled with `Except Unit`. -/

/-- Result of `page.extract_text()` for one page: the call raises, or
returns `None` or a string. -/
inductive PageRead where
  | failed
  | text (t : Option (List Char))
  deriving DecidableEq

/-- A document as seen by the detector: whether `pdfplumber.open`
succeeds, and the per-page extraction results. -/
structure Doc where
  readable : Bool
  pages : List PageRead
  deriving DecidableEq

/-- The page loop of `has_extractable_text` (lines 55-58): for each page,
`text = page.extract_text() or ""`; return `True` on the first page whose
stripped text reaches `min_chars`; a raising page propagates the
exception. -/
def scanPages (minChars : ℕ) : List PageRead → Except Unit Bool
  | [] => .ok false
  | p :: ps =>
    match p with
    | .failed => .error ()
    | .text t =>
      if minChars ≤ (pyStrip (t.getD [])).length then .ok true
      else scanPages minChars ps

/-- The `try` block of `has_extractable_text`: `pdfplumber.open` (raises
on an unreadable container) followed by the page loop. -/
def hasExtractableTextExc (d : Doc) (minChars : ℕ) : Except Unit Bool :=
  if d.readable then scanPages minChars d.pages else .error ()

/-- `has_extractable_text` (lines 50-61): the whole body is wrapped in
`try/except Exception`; any exception prints a warning and falls through
to `return False`. -/
def has_extractable_text (d : Doc) (minChars : ℕ) : Bool :=
  match hasExtractableTextExc d minChars with
  | .ok b => b
  | .error _ => false

/-- One page qualifies: its extracted text (with `None` read as `""`),
after stripping, reaches the threshold. -/
def qualifies (minChars : ℕ) (p : PageRead) : Bool :=
  match p with
  | .failed => false
  | .text t => decide (minChars ≤ (pyStrip (t.getD [])).length)

/-! ## The caller's classification (`process_directory`, lines 166-176) -/

/-- Per-document outcome of the scanning loop in `process_directory`. -/
inductive Classification where
  | alreadyOk
  | needsOcr
  | errored
  deriving DecidableEq

/-- The call `has_extractable_text(pdf)` as seen by `process_directory`'s
`try`: the function body catches internally, so the call returns
normally with its boolean result. -/
def hasExtractableTextCall (d : Doc) : Except Unit Bool :=
  .ok (has_extractable_text d 20)

/-- Lines 166-176: a document goes to `already_ok` on `True`, to
`needs_ocr` on `False`, and to `errors` only if the detector call itself
raises. -/
def classifyDoc (d : Doc) : Classification :=
  match hasExtractableTextCall d with
  | .ok true => .alreadyOk
  | .ok false => .needsOcr
  | .error _ => .errored

/-! ## Helper lemmas on detection -/

theorem scanPages_noFail (m : ℕ) (ps : List PageRead)
    (hp : ∀ p ∈ ps, p ≠ PageRead.failed) :
    scanPages m ps = .ok (ps.any (qualifies m)) := by
  induction ps with
  | nil => rfl
  | cons p ps ih =>
    cases p with
    | failed => exact absurd rfl (hp _ (List.mem_cons_self _ _))
    | text t =>
      by_cases h : m ≤ (pyStrip (t.getD [])).length
      · simp [scanPages, List.any_cons, qualifies, h]
      · simp only [scanPages, if_neg h, List.any_cons, qualifies]
        rw [ih (fun q hq => hp q (List.mem_cons_of_mem _ hq))]
        simp [h]

theorem scanPages_stops_at_failed (m : ℕ) (pre post : List PageRead)
    (hpre : ∀ p ∈ pre, qualifies m p = false) :
    scanPages m (pre ++ PageRead.failed :: post) = .error () := by
  induction pre with
  | nil => rfl
  | cons p pre ih =>
    cases p with
    | failed => rfl
    | text t =>
      have hq := hpre _ (List.mem_cons_self _ _)
      simp only [qualifies, decide_eq_false_iff_not] at hq
      simp only [List.cons_append, scanPages, if_neg hq]
      exact ih (fun q hq' => hpre q (List.mem_cons_of_mem _ hq'))

/-! ## Overlay geometry and line layout (`ocr_pdf`, lines 105-123)

Pixel dimensions come from `image.size`; points are `pixels * 72 / dpi`
(line 107-108), modelled exactly over `ℚ`. -/

/-- A rasterized page image: pixel width and height (`image.size`). -/
structure Image where
  w : ℕ
  h : ℕ
  deriving DecidableEq

/-- Line 107: `pt_w = img_w * 72 / dpi`. -/
def pageWidthPt (img : Image) (dpi : ℕ) : ℚ :=
  (img.w : ℚ) * 72 / (dpi : ℚ)

/-- Line 108: `pt_h = img_h * 72 / dpi`. -/
def pageHeightPt (img : Image) (dpi : ℕ) : ℚ :=
  (img.h : ℚ) * 72 / (dpi : ℚ)

/-- The layout loop body (lines 118-123): draw each non-blank line at
`(8, y)`, then `y -= 10`, breaking once `y < 10`.  Emitted draws are
`(y, line)` pairs with `y` measured from the page bottom. -/
def layoutGo : ℚ → List (List Char) → List (ℚ × List Char)
  | _, [] => []
  | y, l :: ls =>
    (if nonBlank l then [(y, l)] else [])
      ++ (if y - 10 < 10 then [] else layoutGo (y - 10) ls)

/-- Lines 117-123: the cursor starts at `y = pt_h - 12` and the loop
above runs over the split display lines. -/
def layoutDraws (ptH : ℚ) (lines : List (List Char)) : List (ℚ × List Char) :=
  layoutGo (ptH - 12) lines

/-- The invisible overlay page produced with ReportLab (lines 110-125):
`pagesize = (pt_w, pt_h)`, transparent fill, draws from the layout loop
applied to `bidi_text.splitlines()`. -/
structure OverlayPage where
  w : ℚ
  h : ℚ
  draws : List (ℚ × List Char)
  deriving DecidableEq

/-- Lines 105-125 for one page, taking the already shaped `bidi_text`. -/
def buildOverlay (img : Image) (dpi : ℕ) (bidiText : List Char) : OverlayPage :=
  { w := pageWidthPt img dpi
    h := pageHeightPt img dpi
    draws := layoutDraws (pageHeightPt img dpi) (pySplitlines bidiText) }

/-! ## Page compositing and document assembly (`ocr_pdf`, lines 128-141) -/

/-- A single-page PDF unit: its media-box dimensions in points, an
optional base image layer, and the text-draw instructions it carries. -/
structure PdfPage where
  w : ℚ
  h : ℚ
  imageLayer : Option Image
  textDraws : List (ℚ × List Char)
  deriving DecidableEq

/-- Modelled from the spec: the PageRasterizer/PDF-writer collaborator
behind `image.save(img_pdf_buf, format="PDF", resolution=dpi)` (lines
130-134, PIL) is not in `src/`; per the spec's guarantee in section 4.2,
the image's converted PageSpace dimensions are `pixels * 72 / dpi`. -/
def imagePage (img : Image) (dpi : ℕ) : PdfPage :=
  { w := pageWidthPt img dpi
    h := pageHeightPt img dpi
    imageLayer := some img
    textDraws := [] }

/-- The overlay, read back as a single-page PDF (line 135). -/
def overlayPdfPage (o : OverlayPage) : PdfPage :=
  { w := o.w, h := o.h, imageLayer := none, textDraws := o.draws }

/-- The compositor's failure: an image/overlay dimension mismatch. -/
inductive GeometryMismatch where
  | mismatch
  deriving DecidableEq

/-- Modelled from the spec: the PageCompositor behind
`img_page.merge_page(text_page)` (line 137, pypdf) is not in `src/`; per
spec section 4.4 it merges the overlay's text instructions on top of the
image page and fails if the two pages' dimensions differ. -/
def mergePage (base over : PdfPage) : Except GeometryMismatch PdfPage :=
  if base.w = over.w ∧ base.h = over.h then
    .ok { base with textDraws := base.textDraws ++ over.textDraws }
  else
    .error .mismatch

/-! ## BiDi text shaping (`ocr_pdf`, lines 100-102)

`reshaped = arabic_reshaper.reshape(raw_text)` and
`bidi_text = get_display(reshaped)` are applied to the whole OCR blob;
the result is split into lines afterwards (line 116). -/

/-- Modelled from the spec: whether a character participates in Arabic
contextual joining (`arabic_reshaper` is an external library); the
Arabic letter block, so that line breaks and Latin text never join. -/
def joinsChar (c : Char) : Bool :=
  decide (0x620 ≤ c.toNat ∧ c.toNat ≤ 0x64A)

/-- Code point of the contextual presentation form chosen for a joining
letter from its neighbour context: a distinct Arabic
Presentation-Forms-B point per (letter, joins-before, joins-after). -/
def formCode (p n : Bool) (c : Char) : ℕ :=
  0xFB50 + (4 * (c.toNat - 0x620) + (cond p 1 0) + (cond n 2 0)) % 0x80

theorem formCode_lt (p n : Bool) (c : Char) : formCode p n c < 4294967296 := by
  unfold formCode
  omega

theorem formCode_valid (p n : Bool) (c : Char) : (formCode p n c).isValidChar := by
  refine Or.inr ⟨?_, ?_⟩ <;> (unfold formCode; omega)

/-- The presentation-form character itself. -/
def formChar (p n : Bool) (c : Char) : Char :=
  ⟨⟨BitVec.ofNatLt (formCode p n c) (formCode_lt p n c)⟩, formCode_valid p n c⟩

/-- Modelled from the spec: `arabic_reshaper`'s per-character contextual
substitution — a joining letter is replaced by the presentation form
selected by whether its neighbours join; other characters pass through. -/
def reshapeChar (p n : Bool) (c : Char) : Char :=
  if joinsChar c then formChar p n c else c

/-- Whether the following character joins backwards (the context a
letter sees on its right neighbour in logical order). -/
def nextJoins : List Char → Bool
  | [] => false
  | d :: _ => joinsChar d

/-- Modelled from the spec: `arabic_reshaper.reshape` — walk the text
carrying whether the previous character joins, substituting each
character by its contextual form. -/
def reshapeAux : Bool → List Char → List Char
  | _, [] => []
  | p, c :: cs => reshapeChar p (nextJoins cs) c :: reshapeAux (joinsChar c) cs

/-- Line 101: `arabic_reshaper.reshape(raw_text)` on the whole blob. -/
def reshape (cs : List Char) : List Char :=
  reshapeAux false cs

/-- Is this a right-to-left (Arabic-script) character? -/
def isRTLChar (c : Char) : Bool :=
  decide (0x590 ≤ c.toNat ∧ c.toNat ≤ 0x6FF)

/-- Split a line into maximal runs of a single direction class. -/
def splitRuns : List Char → List (List Char)
  | [] => []
  | c :: cs =>
    match splitRuns cs with
    | [] => [[c]]
    | [] :: rs => [c] :: [] :: rs
    | (d :: r) :: rs =>
      if isRTLChar c = isRTLChar d then (c :: d :: r) :: rs
      else [c] :: (d :: r) :: rs

/-- Modelled from the spec: `python-bidi`'s logical-to-visual reordering
of one line for an RTL paragraph — runs are laid out right-to-left and
each RTL run's characters are reversed, so mixed-direction runs render
left-to-right as they would visually appear. -/
def reorderLine (l : List Char) : List Char :=
  (((splitRuns l).map fun r => if r.any isRTLChar then r.reverse else r).reverse).flatten

/-- Modelled from the spec: `bidi.algorithm.get_display` (line 102,
external library) — its reordering step resets at every `\n`, so
characters are reordered within each newline-delimited segment only,
with the newlines kept in place. -/
def get_display (cs : List Char) : List Char :=
  joinNl ((splitOnNl cs).map reorderLine)

/-- The per-line shaper the spec describes (section 4.3): reshape the
single line, then reorder it logical-to-visual. -/
def shapeLine (l : List Char) : List Char :=
  reorderLine (reshapeAux false l)

/-! ## The per-page pipeline and document assembly (`ocr_pdf`, 90-141) -/

/-- One input page: its rasterized image together with the raw text the
OCR engine (external collaborator, line 95-99) recognizes on it. -/
def ocrPage (dpi : ℕ) (p : Image × List Char) : Except GeometryMismatch PdfPage :=
  mergePage (imagePage p.1 dpi)
    (overlayPdfPage (buildOverlay p.1 dpi (get_display (reshape p.2))))

/-- The composited page `ocrPage` produces when merging succeeds. -/
def compositedPage (dpi : ℕ) (p : Image × List Char) : PdfPage :=
  { w := pageWidthPt p.1 dpi
    h := pageHeightPt p.1 dpi
    imageLayer := some p.1
    textDraws :=
      layoutDraws (pageHeightPt p.1 dpi)
        (pySplitlines (get_display (reshape p.2))) }

/-- `ocr_pdf` (lines 90-141): every image from the rasterizer is OCR'd,
shaped, laid out, composited, and appended to the writer in order; a
compositing failure aborts the document. -/
def ocr_pdf (dpi : ℕ) (pages : List (Image × List Char)) :
    Except GeometryMismatch (List PdfPage) :=
  pages.mapM (ocrPage dpi)

/-! ## In-place processing (`process_directory`, lines 192-211) -/

/-- On-disk state relevant to one in-place document: the target file's
content and the temporary artifact, if one currently exists. -/
structure DiskState where
  original : String
  tmpFile : Option String
  deriving DecidableEq

/-- How one in-place run ends: `tempfile.mkstemp` fails before a
temporary exists, `ocr_pdf` raises after the temporary was created
(possibly after writing part of it), or everything succeeds with the
finished output content. -/
inductive RunOutcome where
  | mkstempFail
  | ocrFail (written : String)
  | success (content : String)
  deriving DecidableEq

/-- Lines 197-211, in-place branch: `mkstemp` in `pdf.parent`, `ocr_pdf`
into the temporary, `os.replace(tmp, pdf)`; the `except` handler
unlinks the temporary when it was created and still exists. -/
def processInPlace (d : DiskState) (o : RunOutcome) : DiskState :=
  match o with
  | .mkstempFail =>
    -- exception before `tmp` was assigned: handler sees `tmp = None`
    d
  | .ocrFail s =>
    -- mkstemp created the temporary, `ocr_pdf` wrote `s` then raised;
    -- handler: `tmp` is set and exists, so `os.unlink(tmp)`
    let afterWrite : DiskState := { original := d.original, tmpFile := some s }
    { original := afterWrite.original, tmpFile := none }
  | .success c =>
    -- mkstemp, full write of the output, then the atomic replace and
    -- `tmp = None`
    let afterWrite : DiskState := { original := d.original, tmpFile := some c }
    { original := (afterWrite.tmpFile).getD afterWrite.original, tmpFile := none }

/-! ## Pass-through of already-accessible documents (lines 166-205) -/

/-- The per-document decision of `process_directory` for a non-dry run:
a document whose detector result is `True` is only listed as `already_ok`
and never enters the OCR loop; otherwise the OCR transformation (the
whole rasterize/OCR/write branch, abstracted as `runOcr`) is applied.
Returns the resulting document and whether OCR ran. -/
def processDoc (runOcr : Doc → Doc) (d : Doc) : Doc × Bool :=
  if has_extractable_text d 20 then (d, false) else (runOcr d, true)

/-! ## Lemmas: newline structure of the shaper -/

theorem splitOnNl_ne_nil : ∀ cs : List Char, splitOnNl cs ≠ []
  | [] => by simp [splitOnNl]
  | c :: cs => by
    by_cases h : c = '\n'
    · simp [splitOnNl, h]
    · cases h2 : splitOnNl cs with
      | nil => simp [splitOnNl, h, h2]
      | cons l ls => simp [splitOnNl, h, h2]

theorem nl_not_mem_splitOnNl : ∀ (cs : List Char), ∀ l ∈ splitOnNl cs, '\n' ∉ l
  | [], l, hl => by
    simp only [splitOnNl, List.mem_singleton] at hl
    simp [hl]
  | c :: cs, l, hl => by
    by_cases h : c = '\n'
    · simp only [splitOnNl, if_pos h, List.mem_cons] at hl
      rcases hl with rfl | hl
      · simp
      · exact nl_not_mem_splitOnNl cs l hl
    · cases h2 : splitOnNl cs with
      | nil => exact absurd h2 (splitOnNl_ne_nil cs)
      | cons m ms =>
        simp only [splitOnNl, if_neg h, h2, List.mem_cons] at hl
        rcases hl with rfl | hl
        · have hm : '\n' ∉ m :=
            nl_not_mem_splitOnNl cs m (h2 ▸ List.mem_cons_self m ms)
          simp only [List.mem_cons, not_or]
          exact ⟨fun he => h he.symm, hm⟩
        · exact nl_not_mem_splitOnNl cs l (h2 ▸ List.mem_cons_of_mem m hl)

theorem splitOnNl_no_nl : ∀ l : List Char, '\n' ∉ l → splitOnNl l = [l]
  | [], _ => rfl
  | c :: cs, h => by
    have hc : ¬c = '\n' := fun he => h (he ▸ List.mem_cons_self c cs)
    have ih := splitOnNl_no_nl cs (fun hm => h (List.mem_cons_of_mem c hm))
    simp [splitOnNl, hc, ih]

theorem splitOnNl_append_nl :
    ∀ (l rest : List Char), '\n' ∉ l →
      splitOnNl (l ++ '\n' :: rest) = l :: splitOnNl rest
  | [], rest, _ => by simp [splitOnNl]
  | c :: cs, rest, h => by
    have hc : ¬c = '\n' := fun he => h (he ▸ List.mem_cons_self c cs)
    have ih :=
      splitOnNl_append_nl cs rest (fun hm => h (List.mem_cons_of_mem c hm))
    simp [splitOnNl, hc, ih]

theorem splitOnNl_joinNl :
    ∀ L : List (List Char), L ≠ [] → (∀ l ∈ L, '\n' ∉ l) →
      splitOnNl (joinNl L) = L
  | [], h, _ => absurd rfl h
  | [l], _, h2 => by
    simpa [joinNl] using splitOnNl_no_nl l (h2 l (List.mem_singleton_self l))
  | l :: l2 :: ls, _, h2 => by
    have ih :=
      splitOnNl_joinNl (l2 :: ls) (by simp)
        (fun x hx => h2 x (List.mem_cons_of_mem l hx))
    have hl : '\n' ∉ l := h2 l (List.mem_cons_self _ _)
    simp [joinNl, splitOnNl_append_nl l _ hl, ih]

theorem pySplitlines_eq_dropLastEmpty :
    ∀ cs : List Char, pySplitlines cs = dropLastEmpty (splitOnNl cs)
  | [] => rfl
  | c :: cs => by
    have ih := pySplitlines_eq_dropLastEmpty cs
    by_cases h : c = '\n'
    · cases h2 : splitOnNl cs with
      | nil => exact absurd h2 (splitOnNl_ne_nil cs)
      | cons m ms =>
        simp only [pySplitlines, splitOnNl, if_pos h, h2]
        simp only [h2] at ih
        simp [dropLastEmpty, ih]
    · cases h2 : splitOnNl cs with
      | nil => exact absurd h2 (splitOnNl_ne_nil cs)
      | cons m ms =>
        simp only [pySplitlines, splitOnNl, if_neg h, h2]
        simp only [h2] at ih
        cases ms with
        | nil =>
          by_cases hm : m = []
          · subst hm
            simp [dropLastEmpty] at ih
            simp [ih, dropLastEmpty]
          · simp [dropLastEmpty, hm] at ih
            simp [ih, dropLastEmpty]
        | cons m2 ms2 =>
          simp only [dropLastEmpty] at ih
          simp [ih, dropLastEmpty]

theorem dropLastEmpty_map (f : List Char → List Char)
    (hf : ∀ l, f l = [] ↔ l = []) :
    ∀ L : List (List Char), dropLastEmpty (L.map f) = (dropLastEmpty L).map f
  | [] => rfl
  | [l] => by
    by_cases h : l = []
    · simp [dropLastEmpty, h, (hf []).mpr rfl]
    · have hfl : ¬f l = [] := fun he => h ((hf l).mp he)
      simp [dropLastEmpty, h, hfl]
  | l :: l2 :: ls => by
    have ih := dropLastEmpty_map f hf (l2 :: ls)
    simp only [List.map_cons] at ih ⊢
    simp [dropLastEmpty, ih]

/-! ## Lemmas: reshaping is per-line -/

theorem joinsChar_nl : joinsChar '\n' = false := by decide

theorem formChar_toNat (p n : Bool) (c : Char) :
    (formChar p n c).toNat = formCode p n c := rfl

theorem formChar_ne_nl (p n : Bool) (c : Char) : formChar p n c ≠ '\n' := by
  intro h
  have h2 : (formChar p n c).toNat = ('\n').toNat := congrArg Char.toNat h
  rw [formChar_toNat] at h2
  have h3 : ('\n').toNat = 10 := rfl
  rw [h3] at h2
  unfold formCode at h2
  omega

theorem reshapeChar_nl (p n : Bool) : reshapeChar p n '\n' = '\n' := by
  simp [reshapeChar, joinsChar_nl]

theorem reshapeChar_ne_nl (p n : Bool) (c : Char) (h : c ≠ '\n') :
    reshapeChar p n c ≠ '\n' := by
  unfold reshapeChar
  by_cases hj : joinsChar c
  · simp only [if_pos hj]
    exact formChar_ne_nl p n c
  · simp only [if_neg hj]
    exact h

theorem reshapeAux_length : ∀ (p : Bool) (l : List Char),
    (reshapeAux p l).length = l.length
  | _, [] => rfl
  | p, c :: cs => by
    simp [reshapeAux, reshapeAux_length (joinsChar c) cs]

theorem nextJoins_head (cs : List Char) (l : List Char) (ls : List (List Char))
    (h : splitOnNl cs = l :: ls) : nextJoins l = nextJoins cs := by
  cases cs with
  | nil =>
    simp only [splitOnNl] at h
    cases h
    rfl
  | cons c cs =>
    by_cases hc : c = '\n'
    · simp only [splitOnNl, if_pos hc] at h
      cases h
      simp [nextJoins, hc, joinsChar_nl]
    · cases h2 : splitOnNl cs with
      | nil => exact absurd h2 (splitOnNl_ne_nil cs)
      | cons m ms =>
        simp only [splitOnNl, if_neg hc, h2] at h
        cases h
        rfl

theorem splitOnNl_reshapeAux :
    ∀ (cs : List Char) (p : Bool) (l : List Char) (ls : List (List Char)),
      splitOnNl cs = l :: ls →
      splitOnNl (reshapeAux p cs) = reshapeAux p l :: ls.map (reshapeAux false)
  | [], p, l, ls, h => by
    simp only [splitOnNl] at h
    cases h
    rfl
  | c :: cs, p, l, ls, h => by
    by_cases hc : c = '\n'
    · subst hc
      simp only [splitOnNl, if_pos rfl] at h
      cases h
      cases h2 : splitOnNl cs with
      | nil => exact absurd h2 (splitOnNl_ne_nil cs)
      | cons m ms =>
        have ih := splitOnNl_reshapeAux cs false m ms h2
        simp only [reshapeAux, reshapeChar_nl, joinsChar_nl]
        simp only [splitOnNl, if_pos rfl, ih, h2]
        rfl
    · cases h2 : splitOnNl cs with
      | nil => exact absurd h2 (splitOnNl_ne_nil cs)
      | cons m ms =>
        simp only [splitOnNl, if_neg hc, h2] at h
        cases h
        have ih := splitOnNl_reshapeAux cs (joinsChar c) m ls h2
        have hne : reshapeChar p (nextJoins cs) c ≠ '\n' := reshapeChar_ne_nl p _ c hc
        have hnj : nextJoins m = nextJoins cs := nextJoins_head cs m ls h2
        simp only [reshapeAux, splitOnNl, if_neg hne, ih, hnj, List.map_cons]

theorem splitOnNl_reshape (cs : List Char) :
    splitOnNl (reshape cs) = (splitOnNl cs).map (reshapeAux false) := by
  cases h2 : splitOnNl cs with
  | nil => exact absurd h2 (splitOnNl_ne_nil cs)
  | cons m ms =>
    unfold reshape
    rw [splitOnNl_reshapeAux cs false m ms h2, List.map_cons]

/-! ## Lemmas: reordering is a per-line permutation -/

theorem flatten_splitRuns : ∀ l : List Char, (splitRuns l).flatten = l
  | [] => rfl
  | c :: cs => by
    have ih := flatten_splitRuns cs
    cases h : splitRuns cs with
    | nil =>
      simp only [h, List.flatten_nil] at ih
      simp [splitRuns, h, ← ih]
    | cons r rs =>
      cases r with
      | nil =>
        simp only [h, List.flatten_cons, List.nil_append] at ih
        simp [splitRuns, h, List.flatten_cons, ih]
      | cons d r' =>
        simp only [h, List.flatten_cons] at ih
        by_cases hd : isRTLChar c = isRTLChar d
        · simp [splitRuns, h, if_pos hd, List.flatten_cons, ih]
        · simp [splitRuns, h, if_neg hd, List.flatten_cons, ih]

theorem flatten_map_perm (f : List Char → List Char)
    (hf : ∀ r, List.Perm (f r) r) :
    ∀ L : List (List Char), List.Perm (L.map f).flatten L.flatten
  | [] => List.Perm.refl []
  | r :: rs => by
    simp only [List.map_cons, List.flatten_cons]
    exact List.Perm.append (hf r) (flatten_map_perm f hf rs)

theorem reorderLine_perm (l : List Char) : List.Perm (reorderLine l) l := by
  unfold reorderLine
  have h1 :
      List.Perm
        (((splitRuns l).map fun r => if r.any isRTLChar then r.reverse else r).reverse).flatten
        ((splitRuns l).map fun r => if r.any isRTLChar then r.reverse else r).flatten :=
    List.Perm.flatten (List.reverse_perm _)
  have h2 :
      List.Perm
        ((splitRuns l).map fun r => if r.any isRTLChar then r.reverse else r).flatten
        (splitRuns l).flatten := by
    refine flatten_map_perm _ (fun r => ?_) (splitRuns l)
    by_cases hr : r.any isRTLChar
    · simp only [if_pos hr]
      exact List.reverse_perm r
    · simp only [if_neg hr]
      exact List.Perm.refl r
  have h3 := List.Perm.trans h1 h2
  rw [flatten_splitRuns l] at h3
  exact h3

theorem reorderLine_length (l : List Char) :
    (reorderLine l).length = l.length :=
  (reorderLine_perm l).length_eq

theorem reorderLine_not_mem (l : List Char) (h : '\n' ∉ l) :
    '\n' ∉ reorderLine l :=
  fun hm => h ((reorderLine_perm l).mem_iff.mp hm)

theorem shapeLine_eq_nil_iff (l : List Char) : shapeLine l = [] ↔ l = [] := by
  unfold shapeLine
  constructor
  · intro h
    have := congrArg List.length h
    rw [reorderLine_length, reshapeAux_length] at this
    exact List.length_eq_zero.mp this
  · intro h
    subst h
    rfl

/-! ## Lemmas: the layout loop -/

theorem layoutGo_eq :
    ∀ (ls : List (List Char)) (y : ℚ), 10 ≤ y →
      layoutGo y ls = (List.range ls.length).filterMap (fun i : ℕ =>
        if 10 ≤ y - 10 * (i : ℚ) ∧ nonBlank (ls.getD i []) = true
        then some (y - 10 * (i : ℚ), ls.getD i []) else none)
  | [], y, _ => by simp [layoutGo]
  | l :: ls, y, hy => by
    have hsucc :
        ((fun i : ℕ =>
            if 10 ≤ y - 10 * (i : ℚ) ∧ nonBlank ((l :: ls).getD i []) = true
            then some (y - 10 * (i : ℚ), (l :: ls).getD i []) else none) ∘ Nat.succ)
          = (fun i : ℕ =>
            if 10 ≤ (y - 10) - 10 * (i : ℚ) ∧ nonBlank (ls.getD i []) = true
            then some ((y - 10) - 10 * (i : ℚ), ls.getD i []) else none) := by
      funext i
      have harith : y - 10 * ((i + 1 : ℕ) : ℚ) = (y - 10) - 10 * (i : ℚ) := by
        push_cast
        ring
      simp only [Function.comp_apply, Nat.succ_eq_add_one, List.getD_cons_succ, harith]
    rw [List.length_cons, List.range_succ_eq_map]
    by_cases hl : nonBlank l
    · have hhead :
          (if 10 ≤ y - 10 * ((0 : ℕ) : ℚ) ∧ nonBlank ((l :: ls).getD 0 []) = true
            then some (y - 10 * ((0 : ℕ) : ℚ), (l :: ls).getD 0 []) else none)
            = some (y, l) := by
        simp [hy, hl]
      simp only [List.filterMap_cons, hhead]
      rw [List.filterMap_map, hsucc]
      by_cases hb : y - 10 < 10
      · have hnil :
            (List.range ls.length).filterMap (fun i : ℕ =>
              if 10 ≤ (y - 10) - 10 * (i : ℚ) ∧ nonBlank (ls.getD i []) = true
              then some ((y - 10) - 10 * (i : ℚ), ls.getD i []) else none) = [] := by
          refine List.filterMap_eq_nil_iff.mpr (fun i _ => ?_)
          have hpos : (0 : ℚ) ≤ 10 * (i : ℚ) := by positivity
          have hlt : ¬(10 ≤ (y - 10) - 10 * (i : ℚ)) := by linarith
          exact if_neg (fun hh => hlt hh.1)
        rw [hnil]
        simp [layoutGo, hl, hb]
      · have hy2 : (10 : ℚ) ≤ y - 10 := by linarith
        have ih := layoutGo_eq ls (y - 10) hy2
        rw [← ih]
        simp [layoutGo, hl, hb]
    · have hhead :
          (if 10 ≤ y - 10 * ((0 : ℕ) : ℚ) ∧ nonBlank ((l :: ls).getD 0 []) = true
            then some (y - 10 * ((0 : ℕ) : ℚ), (l :: ls).getD 0 []) else none)
            = none := by
        simp [hl]
      simp only [List.filterMap_cons, hhead]
      rw [List.filterMap_map, hsucc]
      by_cases hb : y - 10 < 10
      · have hnil :
            (List.range ls.length).filterMap (fun i : ℕ =>
              if 10 ≤ (y - 10) - 10 * (i : ℚ) ∧ nonBlank (ls.getD i []) = true
              then some ((y - 10) - 10 * (i : ℚ), ls.getD i []) else none) = [] := by
          refine List.filterMap_eq_nil_iff.mpr (fun i _ => ?_)
          have hpos : (0 : ℚ) ≤ 10 * (i : ℚ) := by positivity
          have hlt : ¬(10 ≤ (y - 10) - 10 * (i : ℚ)) := by linarith
          exact if_neg (fun hh => hlt hh.1)
        rw [hnil]
        simp [layoutGo, hl, hb]
      · have hy2 : (10 : ℚ) ≤ y - 10 := by linarith
        have ih := layoutGo_eq ls (y - 10) hy2
        rw [← ih]
        simp [layoutGo, hl, hb]

theorem splitOnNl_get_display (cs : List Char) :
    splitOnNl (get_display cs) = (splitOnNl cs).map reorderLine := by
  unfold get_display
  refine splitOnNl_joinNl _ ?_ ?_
  · cases h2 : splitOnNl cs with
    | nil => exact absurd h2 (splitOnNl_ne_nil cs)
    | cons m ms => simp
  · intro l hl
    rcases List.mem_map.mp hl with ⟨m, hm, rfl⟩
    exact reorderLine_not_mem m (nl_not_mem_splitOnNl cs m hm)

/-! ## Lemmas: the per-page pipeline always merges -/

theorem ocrPage_ok (dpi : ℕ) (p : Image × List Char) :
    ocrPage dpi p = .ok (compositedPage dpi p) := by
  unfold ocrPage mergePage imagePage overlayPdfPage buildOverlay compositedPage
  simp

theorem ocr_pdf_ok (dpi : ℕ) :
    ∀ pages : List (Image × List Char),
      ocr_pdf dpi pages = .ok (pages.map (compositedPage dpi))
  | [] => rfl
  | p :: ps => by
    have ih := ocr_pdf_ok dpi ps
    unfold ocr_pdf at ih ⊢
    rw [List.mapM_cons, ocrPage_ok, ih]
    rfl

/-! ## Claims -/

/-- C1: For every page, the overlay page dimensions in points are computed
from the image's pixel dimensions and the rasterization DPI as
`points = pixels * 72 / dpi`; in particular an image of 2550x3300 pixels
rasterized at 300 DPI yields a page of exactly 612x792 points with the
first text line placed at `y = 780` points. -/
theorem overlay_geometry (img : Image) (dpi : ℕ) (text : List Char)
    (l : List Char) (ls : List (List Char))
    (hsplit : pySplitlines text = l :: ls) (hl : nonBlank l = true) :
    (buildOverlay img dpi text).w = (img.w : ℚ) * 72 / (dpi : ℚ)
    ∧ (buildOverlay img dpi text).h = (img.h : ℚ) * 72 / (dpi : ℚ)
    ∧ (buildOverlay ⟨2550, 3300⟩ 300 text).w = 612
    ∧ (buildOverlay ⟨2550, 3300⟩ 300 text).h = 792
    ∧ ((buildOverlay ⟨2550, 3300⟩ 300 text).draws).head? = some (780, l) := by
  refine ⟨rfl, rfl, by norm_num [buildOverlay, pageWidthPt],
    by norm_num [buildOverlay, pageHeightPt], ?_⟩
  have h792 : pageHeightPt ⟨2550, 3300⟩ 300 = 792 := by norm_num [pageHeightPt]
  simp only [buildOverlay, h792, layoutDraws, hsplit]
  have h780 : (792 : ℚ) - 12 = 780 := by norm_num
  rw [h780]
  simp only [layoutGo, hl, if_true]
  norm_num

/-- C1 witness: the scenario evaluated at a concrete one-line text. -/
theorem overlay_geometry_witness :
    pySplitlines ['a'] = ['a'] :: [] ∧ nonBlank ['a'] = true
    ∧ ((buildOverlay ⟨2550, 3300⟩ 300 ['a']).draws).head? = some (780, ['a']) :=
  ⟨by decide, by decide,
    (overlay_geometry ⟨2550, 3300⟩ 300 ['a'] ['a'] [] (by decide) (by decide)).2.2.2.2⟩

/-- C2 counterexample: the break check runs only after a line is drawn,
so on a page shorter than 22 pt (here 125 px at 600 DPI, page height
15 pt) the first line is emitted at `y = 3` pt — below the 10 pt bottom
margin — although no line fits above the margin. -/
theorem layout_below_margin_cex :
    (buildOverlay ⟨1000, 125⟩ 600 ['a']).draws = [(3, ['a'])] ∧ (3 : ℚ) < 10 := by
  constructor
  · have ha : ('a').isWhitespace = false := by decide
    norm_num [buildOverlay, pageHeightPt, layoutDraws, layoutGo, nonBlank,
      pySplitlines, ha]
  · norm_num

/-- C2 (amended): provided the page is at least 22 pt tall (so the first
line position `pageHeight - 12` is not already below the 10 pt bottom
margin), the emitted draws are exactly the non-blank lines among the
first `k` that fit at or above the bottom margin, each at offset
`12 + 10*i` from the page top; every line, blank or not, consumes one
10 pt line pitch, and no draw lands below the bottom margin. -/
theorem layout_offsets (ptH : ℚ) (lines : List (List Char)) (hh : 22 ≤ ptH) :
    layoutDraws ptH lines = (List.range lines.length).filterMap (fun i : ℕ =>
      if 10 ≤ ptH - 12 - 10 * (i : ℚ) ∧ nonBlank (lines.getD i []) = true
      then some (ptH - 12 - 10 * (i : ℚ), lines.getD i []) else none)
    ∧ ∀ q ∈ layoutDraws ptH lines,
        10 ≤ q.1 ∧ ∃ i, i < lines.length ∧ ptH - q.1 = 12 + 10 * (i : ℚ)
          ∧ q.2 = lines.getD i [] := by
  have hy : (10 : ℚ) ≤ ptH - 12 := by linarith
  have hmain := layoutGo_eq lines (ptH - 12) hy
  refine ⟨hmain, fun q hq => ?_⟩
  rw [layoutDraws, hmain] at hq
  rcases List.mem_filterMap.mp hq with ⟨i, hi, hfi⟩
  by_cases hcond : 10 ≤ ptH - 12 - 10 * (i : ℚ) ∧ nonBlank (lines.getD i []) = true
  · rw [if_pos hcond] at hfi
    cases hfi
    exact ⟨hcond.1, i, List.mem_range.mp hi, by ring, rfl⟩
  · rw [if_neg hcond] at hfi
    cases hfi

/-- C2 witness: a 792 pt page with a blank middle line; the blank line
consumes its pitch and the third line lands at offset 32 from the top. -/
theorem layout_offsets_witness :
    (22 : ℚ) ≤ 792
    ∧ (layoutDraws 792 [['a'], [], ['b']] =
        (List.range ([['a'], [], ['b']] : List (List Char)).length).filterMap
          (fun i : ℕ =>
            if 10 ≤ (792 : ℚ) - 12 - 10 * (i : ℚ)
                ∧ nonBlank (([['a'], [], ['b']] : List (List Char)).getD i []) = true
            then some ((792 : ℚ) - 12 - 10 * (i : ℚ),
              ([['a'], [], ['b']] : List (List Char)).getD i []) else none)
        ∧ ∀ q ∈ layoutDraws 792 [['a'], [], ['b']],
            10 ≤ q.1 ∧ ∃ i, i < ([['a'], [], ['b']] : List (List Char)).length
              ∧ (792 : ℚ) - q.1 = 12 + 10 * (i : ℚ)
              ∧ q.2 = ([['a'], [], ['b']] : List (List Char)).getD i []) :=
  ⟨by norm_num, layout_offsets 792 [['a'], [], ['b']] (by norm_num)⟩

/-- C3: for a readable document (container opens, every page parses), the
detector returns true iff some page's stripped extractable text reaches
the threshold. -/
theorem detector_iff (d : Doc) (m : ℕ) (hr : d.readable = true)
    (hp : ∀ p ∈ d.pages, p ≠ PageRead.failed) :
    has_extractable_text d m = true ↔ d.pages.any (qualifies m) = true := by
  unfold has_extractable_text hasExtractableTextExc
  rw [hr]
  simp only [if_true]
  rw [scanPages_noFail m d.pages hp]

/-- C3 witness: a readable one-page document with 25 characters. -/
theorem detector_iff_witness :
    (⟨true, [PageRead.text (some (List.replicate 25 'b'))]⟩ : Doc).readable = true
    ∧ (∀ p ∈ (⟨true, [PageRead.text (some (List.replicate 25 'b'))]⟩ : Doc).pages,
        p ≠ PageRead.failed)
    ∧ (has_extractable_text ⟨true, [PageRead.text (some (List.replicate 25 'b'))]⟩ 20 = true
        ↔ (⟨true, [PageRead.text (some (List.replicate 25 'b'))]⟩ : Doc).pages.any
            (qualifies 20) = true) :=
  ⟨rfl, by decide, detector_iff _ 20 rfl (by decide)⟩

/-- C4 counterexample: a page-1 parse failure is not absorbed — the
detector returns false although page 2 holds 25 extractable characters
(detection did not continue); and an unreadable document is not
propagated as an error — it is classified as needing OCR, so the batch
error branch is not taken. -/
theorem detector_error_cex :
    has_extractable_text
        ⟨true, [PageRead.failed, PageRead.text (some (List.replicate 25 'b'))]⟩ 20 = false
    ∧ qualifies 20 (PageRead.text (some (List.replicate 25 'b'))) = true
    ∧ classifyDoc ⟨false, []⟩ = Classification.needsOcr
    ∧ classifyDoc ⟨false, []⟩ ≠ Classification.errored := by
  decide

/-- C4 (amended): any exception during detection — a page that cannot be
parsed, or an unreadable document — is caught inside the detector, which
logs a warning and returns false; detection does not continue past a
failing page, nothing propagates to the caller, and such a document is
classified as needing OCR rather than skipped or reported. -/
theorem detector_error_amended (m : ℕ) (pre post : List PageRead)
    (hpre : ∀ p ∈ pre, qualifies m p = false) :
    hasExtractableTextExc ⟨true, pre ++ PageRead.failed :: post⟩ m = .error ()
    ∧ has_extractable_text ⟨true, pre ++ PageRead.failed :: post⟩ m = false
    ∧ ∀ d : Doc, d.readable = false →
        has_extractable_text d m = false ∧ classifyDoc d = Classification.needsOcr := by
  have h1 : hasExtractableTextExc ⟨true, pre ++ PageRead.failed :: post⟩ m = .error () := by
    unfold hasExtractableTextExc
    simp only [if_true]
    exact scanPages_stops_at_failed m pre post hpre
  have hfalse : ∀ (d : Doc), d.readable = false → ∀ m' : ℕ,
      has_extractable_text d m' = false := by
    intro d hd m'
    unfold has_extractable_text hasExtractableTextExc
    rw [hd]
    simp
  refine ⟨h1, ?_, fun d hd => ⟨hfalse d hd m, ?_⟩⟩
  · unfold has_extractable_text
    rw [h1]
  · unfold classifyDoc hasExtractableTextCall
    rw [hfalse d hd 20]

/-- C4 witness: one non-qualifying page before the failing page. -/
theorem detector_error_amended_witness :
    (∀ p ∈ [PageRead.text none], qualifies 20 p = false)
    ∧ (hasExtractableTextExc
          ⟨true, [PageRead.text none] ++ PageRead.failed :: []⟩ 20 = .error ()
        ∧ has_extractable_text
            ⟨true, [PageRead.text none] ++ PageRead.failed :: []⟩ 20 = false
        ∧ ∀ d : Doc, d.readable = false →
            has_extractable_text d 20 = false
              ∧ classifyDoc d = Classification.needsOcr) :=
  ⟨by decide, detector_error_amended 20 [PageRead.text none] [] (by decide)⟩

/-- C5: in-place processing writes to a temporary file in the same
directory and atomically replaces the original; on a failure before the
replace (whether before or after the temporary exists) the temporary is
removed and the disk is exactly as before, and on success the original's
content is wholly replaced with the output. -/
theorem inplace_atomic (d : DiskState) (h : d.tmpFile = none) :
    (∀ s, processInPlace d (RunOutcome.ocrFail s) = d)
    ∧ processInPlace d RunOutcome.mkstempFail = d
    ∧ ∀ c, processInPlace d (RunOutcome.success c) = ⟨c, none⟩ := by
  refine ⟨fun s => ?_, rfl, fun c => rfl⟩
  cases d with
  | mk o t =>
    simp only at h
    rw [h]
    rfl

/-- C5 witness: a fresh run over a document with no stale temporary. -/
theorem inplace_atomic_witness :
    (⟨"doc", none⟩ : DiskState).tmpFile = none
    ∧ processInPlace ⟨"doc", none⟩ (RunOutcome.ocrFail "half") = ⟨"doc", none⟩
    ∧ processInPlace ⟨"doc", none⟩ RunOutcome.mkstempFail = ⟨"doc", none⟩
    ∧ processInPlace ⟨"doc", none⟩ (RunOutcome.success "out") = ⟨"out", none⟩ :=
  ⟨rfl, (inplace_atomic ⟨"doc", none⟩ rfl).1 "half",
    (inplace_atomic ⟨"doc", none⟩ rfl).2.1,
    (inplace_atomic ⟨"doc", none⟩ rfl).2.2 "out"⟩

/-- C6: for every successfully processed document, `ocr_pdf` emits
exactly one composited page per rasterized input page, in the same
order — the output is the elementwise image of the input, so no page is
inserted, dropped, or reordered, and the page counts agree. -/
theorem page_count_preserved (dpi : ℕ) (pages : List (Image × List Char)) :
    ocr_pdf dpi pages = .ok (pages.map (compositedPage dpi))
    ∧ (pages.map (compositedPage dpi)).length = pages.length :=
  ⟨ocr_pdf_ok dpi pages, List.length_map pages (compositedPage dpi)⟩

/-- C7: splitting after whole-blob reshaping and reordering equals
splitting the raw text first and shaping each line independently:
line count is preserved, line order is preserved, and an empty raw line
stays an empty display line. -/
theorem shaping_per_line (raw : List Char) :
    pySplitlines (get_display (reshape raw)) = (pySplitlines raw).map shapeLine
    ∧ (pySplitlines (get_display (reshape raw))).length = (pySplitlines raw).length
    ∧ shapeLine [] = [] := by
  have hcomp : (fun l => reorderLine (reshapeAux false l)) = shapeLine := by
    funext l
    rfl
  have hmain : pySplitlines (get_display (reshape raw))
      = (pySplitlines raw).map shapeLine := by
    rw [pySplitlines_eq_dropLastEmpty, pySplitlines_eq_dropLastEmpty,
      splitOnNl_get_display, splitOnNl_reshape, List.map_map]
    have : reorderLine ∘ reshapeAux false = shapeLine := by
      funext l
      rfl
    rw [this]
    exact dropLastEmpty_map shapeLine shapeLine_eq_nil_iff (splitOnNl raw)
  exact ⟨hmain, by rw [hmain, List.length_map], rfl⟩

/-- C8: a document on which the detector finds extractable text is only
recorded as already accessible: the OCR branch (rasterize + OCR + write)
is never applied, the document passes through unmodified, and running the
pipeline again changes nothing. -/
theorem passthrough_idempotent (runOcr : Doc → Doc) (d : Doc)
    (h : has_extractable_text d 20 = true) :
    processDoc runOcr d = (d, false)
    ∧ processDoc runOcr (processDoc runOcr d).1 = (d, false) := by
  have h1 : processDoc runOcr d = (d, false) := by
    unfold processDoc
    rw [h]
    simp
  refine ⟨h1, ?_⟩
  rw [h1]
  exact h1

/-- C8 witness: a document with a 20-character page, under an arbitrary
OCR transformation. -/
theorem passthrough_idempotent_witness :
    has_extractable_text ⟨true, [PageRead.text (some (List.replicate 20 'a'))]⟩ 20 = true
    ∧ processDoc id ⟨true, [PageRead.text (some (List.replicate 20 'a'))]⟩
        = (⟨true, [PageRead.text (some (List.replicate 20 'a'))]⟩, false)
    ∧ processDoc id
        (processDoc id ⟨true, [PageRead.text (some (List.replicate 20 'a'))]⟩).1
        = (⟨true, [PageRead.text (some (List.replicate 20 'a'))]⟩, false) :=
  ⟨by decide,
    (passthrough_idempotent id _ (by decide)).1,
    (passthrough_idempotent id _ (by decide)).2⟩

/-- C9: the overlay page built for an image always has exactly the image
page's dimensions, and the compositor refuses pages whose dimensions
differ, producing an error (no merged page) that aborts the document. -/
theorem compositor_dims (img : Image) (dpi : ℕ) (text : List Char) :
    (overlayPdfPage (buildOverlay img dpi text)).w = (imagePage img dpi).w
    ∧ (overlayPdfPage (buildOverlay img dpi text)).h = (imagePage img dpi).h
    ∧ ∀ base over : PdfPage, ¬(base.w = over.w ∧ base.h = over.h) →
        mergePage base over = .error GeometryMismatch.mismatch := by
  refine ⟨rfl, rfl, fun base over hne => ?_⟩
  unfold mergePage
  exact if_neg hne

/-- C9 witness: mismatched 612 pt vs 300 pt wide pages fail to merge. -/
theorem compositor_dims_witness :
    ¬((⟨612, 792, none, []⟩ : PdfPage).w = (⟨300, 792, none, []⟩ : PdfPage).w
        ∧ (⟨612, 792, none, []⟩ : PdfPage).h = (⟨300, 792, none, []⟩ : PdfPage).h)
    ∧ mergePage ⟨612, 792, none, []⟩ ⟨300, 792, none, []⟩
        = .error GeometryMismatch.mismatch :=
  ⟨by norm_num, (compositor_dims ⟨1, 1⟩ 72 []).2.2 _ _ (by norm_num)⟩

/-- C10: the detector call is total — every exception while opening or
reading is caught and yields false, the caller's per-document error
branch is never taken, and an unreadable document is classified as
needing OCR rather than reported as an error. -/
theorem detector_never_raises (d : Doc) (m : ℕ) :
    classifyDoc d ≠ Classification.errored
    ∧ (hasExtractableTextExc d m = .error () → has_extractable_text d m = false)
    ∧ (d.readable = false →
        has_extractable_text d m = false ∧ classifyDoc d = Classification.needsOcr) := by
  refine ⟨?_, ?_, ?_⟩
  · unfold classifyDoc hasExtractableTextCall
    cases h : has_extractable_text d 20 <;> simp
  · intro he
    unfold has_extractable_text
    rw [he]
  · intro hr
    have hfalse : ∀ m' : ℕ, has_extractable_text d m' = false := by
      intro m'
      unfold has_extractable_text hasExtractableTextExc
      rw [hr]
      simp
    refine ⟨hfalse m, ?_⟩
    unfold classifyDoc hasExtractableTextCall
    rw [hfalse 20]

/-- C10 witness: an unreadable document. -/
theorem detector_never_raises_witness :
    classifyDoc ⟨false, []⟩ ≠ Classification.errored
    ∧ has_extractable_text ⟨false, []⟩ 20 = false
    ∧ classifyDoc ⟨false, []⟩ = Classification.needsOcr :=
  ⟨(detector_never_raises ⟨false, []⟩ 20).1,
    ((detector_never_raises ⟨false, []⟩ 20).2.2 rfl).1,
    ((detector_never_raises ⟨false, []⟩ 20).2.2 rfl).2⟩
